import Mathlib

/-!
# Verification of the remote-tasks task-lifecycle protocol

A shallow embedding of the `remote-tasks` system: a Cloudflare-Worker queue
store backed by a D1 (SQLite) database (`worker/index.ts`, `worker/schema.sql`),
a CLI agent runner (`src/index.ts`), and the browser log replay
(`worker/index.html`).

The `tasks` table has columns `id, tag, task, status`; the `task` column is a
JSON text payload `{command, exitCode, lastHeartbeat}` written by the CLI and
UI.  We model the payload structurally (JSON stringify/parse round-trips it).
The `logs` table has columns `id, task_id, log` where `log` is a JSON text
chunk `{timestamp, entries}`; entries carry base64 data.

D1 serializes individual SQL statements; concurrency between callers is
modelled by letting each handler's statements run against the store state
current at that moment (see `postTasksStartRacy` and `casRunCount`).
-/

namespace RemoteTasks

/-- Task status column: the zod enum `['pending', 'running', 'done']`. -/
inductive Status
  | pending
  | running
  | done
deriving DecidableEq, Repr

/-- The JSON payload stored in the `task` text column:
`{ command, exitCode, lastHeartbeat }` (see the `add` command and the UI's
`handleSubmit`).  Timestamps are modelled as naturals. -/
structure TaskPayload where
  command : List String
  exitCode : Option Int
  lastHeartbeat : Option Nat
deriving DecidableEq, Repr

/-- A row of the `tasks` table: `id, tag, task, status`. -/
structure TaskRow where
  id : Nat
  tag : String
  task : TaskPayload
  status : Status
deriving DecidableEq, Repr

/-- One captured output entry `{type: 'stdout'|'stderr', data: base64}`
pushed by the runner's stdout/stderr transforms. -/
structure LogEntry where
  type : String
  data : String
deriving DecidableEq, Repr

/-- The JSON chunk stored in the `log` text column:
`{ timestamp, entries }` as built by the runner's `sendLogs`. -/
structure LogChunk where
  timestamp : Nat
  entries : List LogEntry
deriving DecidableEq, Repr

/-- A row of the `logs` table: `id, task_id, log`. -/
structure LogRow where
  id : Nat
  task_id : Nat
  log : LogChunk
deriving DecidableEq, Repr

/-- The D1 database state: both tables, rows kept in rowid (= `id`) order,
which is the order SQLite scans them in. -/
structure Store where
  tasks : List TaskRow
  logs : List LogRow
deriving DecidableEq, Repr

/-! ## POST /tasks/start/:tag — the claim operation -/

/-- `SELECT * FROM tasks WHERE tag = ? AND status = "pending" ORDER BY id
LIMIT 1`: the lowest-id row of the filtered set (ties cannot occur, `id` is
the primary key; we keep the earliest row on a tie like the scan would). -/
def selectMinId : List TaskRow → Option TaskRow
  | [] => none
  | t :: rest =>
    match selectMinId rest with
    | none => some t
    | some u => if t.id ≤ u.id then some t else some u

/-- The row matching the claim query's WHERE clause. -/
def pendingWithTag (tag : String) (t : TaskRow) : Bool :=
  decide (t.tag = tag) && decide (t.status = Status.pending)

/-- The SELECT step of `POST /tasks/start/:tag`. -/
def findPendingTask (tasks : List TaskRow) (tag : String) : Option TaskRow :=
  selectMinId (tasks.filter (pendingWithTag tag))

/-- `UPDATE tasks SET status = "running" WHERE id = ? AND status = "pending"`:
returns the updated table and `meta.changed_db` (whether any row matched). -/
def casToRunning (tasks : List TaskRow) (tid : Nat) : List TaskRow × Bool :=
  (tasks.map fun t =>
      if t.id = tid ∧ t.status = Status.pending then { t with status := Status.running } else t,
    tasks.any fun t => decide (t.id = tid) && decide (t.status = Status.pending))

/-- Whether some row with this id is currently `pending`. -/
def taskPendingB (tasks : List TaskRow) (tid : Nat) : Bool :=
  tasks.any fun t => decide (t.id = tid) && decide (t.status = Status.pending)

/-- Response of `POST /tasks/start/:tag`: 200 with the row read before the
update (or `null`), or 409 `'Task status was already changed'`. -/
inductive StartResponse
  | ok (task : Option TaskRow)
  | conflict
deriving DecidableEq, Repr

/-- The handler of `POST /tasks/start/:tag`, with the SELECT executed against
the table state `readTasks` and the conditional UPDATE against the (possibly
later) table state `writeTasks`; D1 serializes the two statements but other
callers' statements may run in between. -/
def postTasksStartRacy (readTasks writeTasks : List TaskRow) (tag : String) :
    List TaskRow × StartResponse :=
  match findPendingTask readTasks tag with
  | none => (writeTasks, .ok none)
  | some t =>
    let r := casToRunning writeTasks t.id
    if r.2 then (r.1, .ok (some t)) else (r.1, .conflict)

/-- The handler when no other statement interleaves: both statements see the
same table state. -/
def postTasksStart (store : Store) (tag : String) : Store × StartResponse :=
  let r := postTasksStartRacy store.tasks store.tasks tag
  ({ store with tasks := r.1 }, r.2)

/-! ### Serialized CAS attempts (claim contention) -/

/-- Apply one caller's conditional UPDATE. -/
def applyCas (tasks : List TaskRow) (tid : Nat) : List TaskRow :=
  (casToRunning tasks tid).1

/-- Run a serialization of the callers' conditional UPDATEs (each caller
contributes the id its SELECT returned) and count how many of the attempts
aimed at `tid` report `changed_db` — i.e. how many callers are handed task
`tid`. -/
def casRunCount (tasks : List TaskRow) (tids : List Nat) (tid : Nat) : Nat :=
  match tids with
  | [] => 0
  | t :: rest =>
    (if t = tid ∧ (casToRunning tasks t).2 then 1 else 0) +
      casRunCount (applyCas tasks t) rest tid

/-! ## The agent runner (`src/index.ts`) -/

/-- `UPDATE tasks SET tag = ?, task = ?, status = ? WHERE id = ?`
(the `PUT /tasks/:id` handler; an unconditioned overwrite). -/
def putTask (store : Store) (id : Nat) (tag : String) (payload : TaskPayload)
    (status : Status) : Store :=
  { store with
    tasks := store.tasks.map fun r =>
      if r.id = id then { r with tag := tag, task := payload, status := status } else r }

/-- The runner's per-task mutable state inside `runNextTask`: the `task`
object returned by `startNextTask` (whose `status` field is mutated only at
finalization) and the parsed `taskData` payload (mutated by heartbeats and at
finalization). -/
structure RunnerTaskState where
  task : TaskRow
  taskData : TaskPayload
deriving DecidableEq, Repr

/-- The runner state right after a successful claim:
`taskData = JSON.parse(task.task)`. -/
def mkRunnerState (t : TaskRow) : RunnerTaskState :=
  { task := t, taskData := t.task }

/-- One tick of `heartbeatInterval`: `taskData.lastHeartbeat = now;
client.updateTask({ ...task, task: JSON.stringify(taskData) })`.  Note the
spread copies the claimed record's `status` field unchanged. -/
def heartbeatStep (rs : RunnerTaskState) (now : Nat) (store : Store) :
    RunnerTaskState × Store :=
  let payload := { rs.taskData with lastHeartbeat := some now }
  ({ rs with taskData := payload },
    putTask store rs.task.id rs.task.tag payload rs.task.status)

/-- The `child.on('close')` finalization: `taskData.exitCode = code;
task.status = 'done'; client.updateTask({ ...task, task:
JSON.stringify(taskData) })`.  `lastHeartbeat` is left as-is. -/
def finalizeStep (rs : RunnerTaskState) (code : Int) (store : Store) :
    RunnerTaskState × Store :=
  let payload := { rs.taskData with exitCode := some code }
  ({ task := { rs.task with status := Status.done }, taskData := payload },
    putTask store rs.task.id rs.task.tag payload Status.done)

/-- `SELECT * FROM tasks WHERE id = ?` taking the first row, for stating
postconditions. -/
def getTask (store : Store) (id : Nat) : Option TaskRow :=
  store.tasks.find? fun r => decide (r.id = id)

/-- The `add` command: payload `{command, exitCode: null, lastHeartbeat:
null}`, status `pending`; the store assigns `id` (SQLite rowid:
max existing + 1). -/
def maxTaskId : List TaskRow → Nat
  | [] => 0
  | r :: rest => max r.id (maxTaskId rest)

/-- `POST /tasks` as driven by the `add` command. -/
def addTask (store : Store) (tag : String) (command : List String) : Store × TaskRow :=
  let row : TaskRow :=
    { id := maxTaskId store.tasks + 1, tag := tag,
      task := { command := command, exitCode := none, lastHeartbeat := none },
      status := Status.pending }
  ({ store with tasks := store.tasks ++ [row] }, row)

/-! ## The client (`WorkerClient`) view of a claim -/

/-- What `WorkerClient.startNextTask` hands back to the runner:
a 200 body parses as `Task | null`; any non-2xx response makes `request`
throw a `ResponseError` carrying the HTTP status. -/
inductive ClientResult
  | task (t : TaskRow)
  | noTask
  | error (status : Nat)
deriving DecidableEq, Repr

/-- `startNextTask`: maps the worker's response through `request`
(throw on `!response.ok`, then parse with `z.union([taskSchema,
z.literal(null)])`). -/
def startNextTaskClient : StartResponse → ClientResult
  | .ok (some t) => .task t
  | .ok none => .noTask
  | .conflict => .error 409

/-- Two callers race on the same tag: both SELECTs run against the initial
table, caller A's UPDATE is serialized first, caller B's UPDATE second. -/
def twoCallerRace (tasks : List TaskRow) (tag : String) : ClientResult × ClientResult :=
  let ra := postTasksStartRacy tasks tasks tag
  let rb := postTasksStartRacy tasks ra.1 tag
  (startNextTaskClient ra.2, startNextTaskClient rb.2)

/-! ## The log flush (`sendLogs` in `runNextTask`) -/

/-- Runner-side flush state: the in-memory `logs` array and the chunks so far
persisted through `appendLog`. -/
structure FlushState where
  buffer : List LogEntry
  stored : List LogChunk
deriving DecidableEq, Repr

/-- One invocation of `sendLogs`: if the buffer is non-empty, snapshot it
into a chunk, then `logs.length = 0` (this truncation happens BEFORE the
`await client.appendLog(...)`), then attempt the append; `appendOk` tells
whether the append succeeded or threw. -/
def sendLogs (st : FlushState) (now : Nat) (appendOk : Bool) : FlushState :=
  if st.buffer.isEmpty then st
  else
    let chunk : LogChunk := { timestamp := now, entries := st.buffer }
    let st2 : FlushState := { st with buffer := [] }
    if appendOk then { st2 with stored := st2.stored ++ [chunk] } else st2

/-! ## The execution cycle (`runNextTask`) -/

/-- Externally visible events of one `runNextTask` cycle, in order. -/
inductive CycleEvent
  | claimCalled
  | prepCalled (exit : Nat)
  | spawned
deriving DecidableEq, Repr

/-- Outcome of one cycle. -/
inductive CycleResult
  | noTask
  | prepFailed
  | started (t : TaskRow)
  | claimError (status : Nat)
deriving DecidableEq, Repr

/-- The pre-task loop: `for (const preTaskCommand of config.preTask) await
execa(...)`; `execa` throws on a non-zero exit, aborting the loop (and the
cycle). `prepExits` are the exit codes the configured commands would
produce. -/
def prepTrace : List Nat → List CycleEvent
  | [] => []
  | e :: rest => .prepCalled e :: (if e = 0 then prepTrace rest else [])

/-- `runNextTask`: `startNextTask` FIRST; on `null`, return. Only then are
the `preTask` commands executed; if all exit zero the child is spawned. -/
def runCycle (store : Store) (tag : String) (prepExits : List Nat) :
    Store × CycleResult :=
  let r := postTasksStart store tag
  match r.2 with
  | .ok none => (r.1, .noTask)
  | .ok (some t) =>
    if prepExits.all (· = 0) then (r.1, .started t) else (r.1, .prepFailed)
  | .conflict => (r.1, .claimError 409)

/-- The event order of one cycle: the claim request is issued before any
preparation command runs, and nothing runs when no task was claimed. -/
def runCycleTrace (store : Store) (tag : String) (prepExits : List Nat) :
    List CycleEvent :=
  match (postTasksStart store tag).2 with
  | .ok none => [.claimCalled]
  | .ok (some _) =>
    .claimCalled :: (prepTrace prepExits ++ if prepExits.all (· = 0) then [.spawned] else [])
  | .conflict => [.claimCalled]

/-! ## The requeue command -/

/-- The body shape of a worker response as the client's zod schema sees it:
`GET /tasks/:id` serializes `result.results`, a JSON ARRAY of rows, while
`POST /tasks` serializes a single row object. -/
inductive TaskJson
  | obj (t : Option TaskRow)
  | arr (ts : List TaskRow)
deriving DecidableEq, Repr

/-- The `GET /tasks/:id` handler: `.all()` then `JSON.stringify(result.results)`. -/
def getTasksByIdEndpoint (store : Store) (id : Nat) : TaskJson :=
  .arr (store.tasks.filter fun r => decide (r.id = id))

/-- `taskSchema.safeParse` on the response body: `z.object({...})` accepts a
single object and rejects an array, upon which `request` throws
`ResponseError('Response parsing failed', 500, ...)`. -/
def parseTaskSchema : TaskJson → Except Nat TaskRow
  | .obj (some t) => .ok t
  | .obj none => .error 500
  | .arr _ => .error 500

/-- `WorkerClient.getTaskById`. -/
def getTaskById (store : Store) (id : Nat) : Except Nat TaskRow :=
  parseTaskSchema (getTasksByIdEndpoint store id)

/-- The `requeue` command for one id: read the task, set `status = 'pending'`
and null out `exitCode`/`lastHeartbeat` in the payload, write back via
`PUT /tasks/:id`.  A thrown `ResponseError` propagates (nothing is written). -/
def requeueCommand (store : Store) (id : Nat) : Except Nat Store := do
  let task ← getTaskById store id
  let payload := { task.task with exitCode := none, lastHeartbeat := none }
  return putTask store id task.tag payload Status.pending

/-! ## Log storage and fetch -/

/-- Largest rowid in the `logs` table. -/
def maxLogId : List LogRow → Nat
  | [] => 0
  | r :: rest => max r.id (maxLogId rest)

/-- `INSERT INTO logs (task_id, log) VALUES (?, ?)`: SQLite assigns the new
row the rowid `max + 1` and it sits last in scan order. -/
def appendLogRow (rows : List LogRow) (tid : Nat) (chunk : LogChunk) : List LogRow :=
  rows ++ [{ id := maxLogId rows + 1, task_id := tid, log := chunk }]

/-- `SELECT * FROM logs WHERE task_id = ?`: the rows for one task in scan
order (the table is kept in rowid order and both the full scan and the
`logs_task_id` index scan return ascending rowid within a task). -/
def fetchLogRows (rows : List LogRow) (tid : Nat) : List LogRow :=
  rows.filter fun r => decide (r.task_id = tid)

/-- The `GET /logs/:task_id` body: `result.results.map(row => row.log)`. -/
def fetchLogChunks (rows : List LogRow) (tid : Nat) : List LogChunk :=
  (fetchLogRows rows tid).map LogRow.log

/-- Strictly ascending ids, the invariant of the `logs` table. -/
def logsSorted (rows : List LogRow) : Prop :=
  rows.Pairwise fun a b => a.id < b.id

/-! ## Log replay (`replayLogs` in `worker/index.html`) -/

/-- Value of one base64 alphabet character (`atob`). -/
def b64val (c : Char) : Option Nat :=
  if 'A' ≤ c ∧ c ≤ 'Z' then some (c.toNat - 65)
  else if 'a' ≤ c ∧ c ≤ 'z' then some (c.toNat - 97 + 26)
  else if '0' ≤ c ∧ c ≤ '9' then some (c.toNat - 48 + 52)
  else if c = '+' then some 62
  else if c = '/' then some 63
  else none

/-- Reassemble 6-bit groups into bytes (the `decodeBase64` helper: `atob`
followed by `charCodeAt` over the binary string). -/
def bytesOfSextets : List Nat → List Nat
  | a :: b :: c :: d :: rest =>
    (a * 4 + b / 16) :: (b % 16 * 16 + c / 4) :: (c % 4 * 64 + d) :: bytesOfSextets rest
  | [a, b, c] => [a * 4 + b / 16, b % 16 * 16 + c / 4]
  | [a, b] => [a * 4 + b / 16]
  | _ => []

/-- `decodeBase64(data)` as a byte list. -/
def decodeBase64 (s : String) : List Nat :=
  bytesOfSextets (s.data.filterMap b64val)

/-- Bytes written to the terminal for one chunk: every entry's decoded data,
in recorded order (stdout and stderr entries alike go through
`terminal.write`). -/
def entriesBytes : List LogEntry → List Nat
  | [] => []
  | e :: rest => decodeBase64 e.data ++ entriesBytes rest

/-- Bytes written for a list of chunks, in order. -/
def chunksBytes : List LogChunk → List Nat
  | [] => []
  | c :: rest => entriesBytes c.entries ++ chunksBytes rest

/-- `replayLogs(id, position)`: reset the terminal, then write the decoded
entries of `logs.slice(0, position)` in order. -/
def replayBytes (chunks : List LogChunk) (p : Nat) : List Nat :=
  chunksBytes (chunks.take p)

/-! ## Concrete fixtures -/

/-- Payload of a freshly submitted `echo hi` task. -/
def exPayload : TaskPayload :=
  { command := ["echo", "hi"], exitCode := none, lastHeartbeat := none }

/-- A single pending task, id 1, tag `t1`. -/
def exRow1 : TaskRow :=
  { id := 1, tag := "t1", task := exPayload, status := Status.pending }

/-- A store holding just `exRow1`. -/
def exStore1 : Store := { tasks := [exRow1], logs := [] }

/-- The same task already claimed (status `running`). -/
def exRow1Run : TaskRow := { exRow1 with status := Status.running }

/-- Table where task 1 is already `running`. -/
def exTasksRun : List TaskRow := [exRow1Run]

/-! ## Lemmas about the conditional claim update -/

theorem casToRunning_snd (tasks : List TaskRow) (tid : Nat) :
    (casToRunning tasks tid).2 = taskPendingB tasks tid := rfl

theorem taskPendingB_iff (tasks : List TaskRow) (tid : Nat) :
    taskPendingB tasks tid = true ↔
      ∃ t ∈ tasks, t.id = tid ∧ t.status = Status.pending := by
  simp [taskPendingB, List.any_eq_true]

/-- The conditional UPDATE never creates a pending row: if some row with id
`tid` is pending afterwards, it was pending before. -/
theorem taskPendingB_applyCas_le (tasks : List TaskRow) (tu tid : Nat)
    (h : taskPendingB (applyCas tasks tu) tid = true) :
    taskPendingB tasks tid = true := by
  rw [taskPendingB_iff] at h ⊢
  obtain ⟨x, hx, hxid, hxst⟩ := h
  simp only [applyCas, casToRunning, List.mem_map] at hx
  obtain ⟨r, hr, hrx⟩ := hx
  by_cases hc : r.id = tu ∧ r.status = Status.pending
  · rw [if_pos hc] at hrx
    subst hrx
    simp at hxst
  · rw [if_neg hc] at hrx
    subst hrx
    exact ⟨r, hr, hxid, hxst⟩

/-- After a successful conditional UPDATE on `tid`, no row with id `tid` is
pending any more. -/
theorem taskPendingB_applyCas_self (tasks : List TaskRow) (tid : Nat) :
    taskPendingB (applyCas tasks tid) tid = false := by
  rw [Bool.eq_false_iff]
  intro h
  rw [taskPendingB_iff] at h
  obtain ⟨x, hx, hxid, hxst⟩ := h
  simp only [applyCas, casToRunning, List.mem_map] at hx
  obtain ⟨r, _, hrx⟩ := hx
  by_cases hc : r.id = tid ∧ r.status = Status.pending
  · rw [if_pos hc] at hrx
    subst hrx
    simp at hxst
  · rw [if_neg hc] at hrx
    subst hrx
    exact hc ⟨hxid, hxst⟩

/-- No serialization of conditional UPDATEs hands out a task that is not
pending when the run starts. -/
theorem casRunCount_eq_zero (tasks : List TaskRow) (tids : List Nat) (tid : Nat)
    (h : taskPendingB tasks tid = false) :
    casRunCount tasks tids tid = 0 := by
  induction tids generalizing tasks with
  | nil => rfl
  | cons t rest ih =>
    have h2 : taskPendingB (applyCas tasks t) tid = false := by
      cases hh : taskPendingB (applyCas tasks t) tid
      · rfl
      · rw [taskPendingB_applyCas_le tasks t tid hh] at h
        exact h
    simp only [casRunCount, ih _ h2, Nat.add_zero]
    by_cases ht : t = tid
    · subst ht
      rw [if_neg]
      intro hc
      rw [casToRunning_snd, h] at hc
      exact Bool.false_ne_true hc.2
    · rw [if_neg]
      intro hc
      exact ht hc.1

/-! ## Lemmas about the claim SELECT -/

theorem selectMinId_eq_none (l : List TaskRow) (h : selectMinId l = none) : l = [] := by
  cases l with
  | nil => rfl
  | cons t rest =>
    exfalso
    cases hr : selectMinId rest with
    | none => simp [selectMinId, hr] at h
    | some u => by_cases hle : t.id ≤ u.id <;> simp [selectMinId, hr, hle] at h

theorem selectMinId_mem (l : List TaskRow) (u : TaskRow) (h : selectMinId l = some u) :
    u ∈ l := by
  induction l generalizing u with
  | nil => simp [selectMinId] at h
  | cons t rest ih =>
    cases hr : selectMinId rest with
    | none =>
      simp only [selectMinId, hr, Option.some.injEq] at h
      subst h
      exact List.mem_cons_self t rest
    | some w =>
      by_cases hle : t.id ≤ w.id
      · simp only [selectMinId, hr, if_pos hle, Option.some.injEq] at h
        subst h
        exact List.mem_cons_self t rest
      · simp only [selectMinId, hr, if_neg hle, Option.some.injEq] at h
        subst h
        exact List.mem_cons_of_mem t (ih _ hr)

theorem selectMinId_le (l : List TaskRow) (u : TaskRow) (h : selectMinId l = some u) :
    ∀ v ∈ l, u.id ≤ v.id := by
  induction l generalizing u with
  | nil => simp [selectMinId] at h
  | cons t rest ih =>
    intro v hv
    cases hr : selectMinId rest with
    | none =>
      have hrest : rest = [] := selectMinId_eq_none rest hr
      subst hrest
      simp only [selectMinId, Option.some.injEq] at h
      subst h
      simp only [List.mem_singleton] at hv
      subst hv
      exact Nat.le_refl _
    | some w =>
      by_cases hle : t.id ≤ w.id
      · simp only [selectMinId, hr, if_pos hle, Option.some.injEq] at h
        subst h
        rcases List.mem_cons.mp hv with rfl | hvr
        · exact Nat.le_refl _
        · exact Nat.le_trans hle (ih _ hr v hvr)
      · simp only [selectMinId, hr, if_neg hle, Option.some.injEq] at h
        subst h
        rcases List.mem_cons.mp hv with rfl | hvr
        · exact Nat.le_of_not_le hle
        · exact ih _ hr v hvr

/-- What membership in the claim query's result set means. -/
theorem findPendingTask_spec (tasks : List TaskRow) (tag : String) (t : TaskRow)
    (h : findPendingTask tasks tag = some t) :
    t ∈ tasks ∧ t.tag = tag ∧ t.status = Status.pending := by
  have hm := selectMinId_mem _ _ h
  rw [List.mem_filter] at hm
  obtain ⟨hmem, hp⟩ := hm
  simp only [pendingWithTag, Bool.and_eq_true, decide_eq_true_eq] at hp
  exact ⟨hmem, hp.1, hp.2⟩

/-! ## Claim theorems -/

/-- C1: Claim exclusivity.  However the concurrent `POST /tasks/start/:tag`
callers' conditional UPDATEs are serialized by the store, at most one of the
attempts aimed at a given task reports `changed_db` — so at most one caller
is handed that task; and a task whose status is no longer `pending` at write
time is never transitioned again (the conditional UPDATE is a no-op reporting
no change). -/
theorem claim_exclusivity (tasks : List TaskRow) (tids : List Nat) (tid : Nat) :
    casRunCount tasks tids tid ≤ 1 ∧
      (taskPendingB tasks tid = false → casToRunning tasks tid = (tasks, false)) := by
  constructor
  · induction tids generalizing tasks with
    | nil => exact Nat.zero_le 1
    | cons t rest ih =>
      simp only [casRunCount]
      by_cases hc : t = tid ∧ (casToRunning tasks t).2 = true
      · rw [if_pos hc]
        obtain ⟨rfl, _⟩ := hc
        have h0 : casRunCount (applyCas tasks t) rest t = 0 :=
          casRunCount_eq_zero _ _ _ (taskPendingB_applyCas_self tasks t)
        rw [h0]
      · rw [if_neg hc, Nat.zero_add]
        exact ih _
  · intro h
    have hid : ∀ r ∈ tasks,
        (if r.id = tid ∧ r.status = Status.pending
          then { r with status := Status.running } else r) = r := by
      intro r hr
      rw [if_neg]
      intro hc
      have hp : taskPendingB tasks tid = true :=
        (taskPendingB_iff _ _).mpr ⟨r, hr, hc.1, hc.2⟩
      rw [h] at hp
      exact Bool.false_ne_true hp
    have hmap := List.map_congr_left hid
    rw [List.map_id'] at hmap
    show (_, _) = (tasks, false)
    rw [hmap]
    exact congrArg (Prod.mk tasks) h

/-- Witness for C1: two serialized claim attempts on task 1 when it is no
longer pending. -/
theorem claim_exclusivity_witness :
    taskPendingB exTasksRun 1 = false ∧
      (casRunCount exTasksRun [1, 1] 1 ≤ 1 ∧
        (taskPendingB exTasksRun 1 = false → casToRunning exTasksRun 1 = (exTasksRun, false))) :=
  ⟨by decide, claim_exclusivity exTasksRun [1, 1] 1⟩

/-- C10: FIFO claim selection.  Whenever a pending task with the requested
tag exists, `POST /tasks/start/:tag` returns a pending task with that tag of
minimal id: no higher-id pending task is picked over a lower-id one. -/
theorem claim_fifo (store : Store) (tag : String)
    (h : ∃ t ∈ store.tasks, t.tag = tag ∧ t.status = Status.pending) :
    ∃ u, (postTasksStart store tag).2 = StartResponse.ok (some u) ∧
      u ∈ store.tasks ∧ u.tag = tag ∧ u.status = Status.pending ∧
      ∀ v ∈ store.tasks, v.tag = tag → v.status = Status.pending → u.id ≤ v.id := by
  obtain ⟨t, ht, htag, hst⟩ := h
  have hft : t ∈ store.tasks.filter (pendingWithTag tag) := by
    rw [List.mem_filter]
    exact ⟨ht, by simp [pendingWithTag, htag, hst]⟩
  obtain ⟨u, hu⟩ : ∃ u, selectMinId (store.tasks.filter (pendingWithTag tag)) = some u := by
    cases hs : selectMinId (store.tasks.filter (pendingWithTag tag)) with
    | none =>
      rw [selectMinId_eq_none _ hs] at hft
      cases hft
    | some u => exact ⟨u, rfl⟩
  have hfind : findPendingTask store.tasks tag = some u := hu
  obtain ⟨humem, hutag, hust⟩ := findPendingTask_spec _ _ _ hfind
  have hupend : taskPendingB store.tasks u.id = true :=
    (taskPendingB_iff _ _).mpr ⟨u, humem, rfl, hust⟩
  refine ⟨u, ?_, humem, hutag, hust, ?_⟩
  · simp only [postTasksStart, postTasksStartRacy, hfind, casToRunning_snd, hupend, if_true]
  · intro v hv hvtag hvst
    have hvf : v ∈ store.tasks.filter (pendingWithTag tag) := by
      rw [List.mem_filter]
      exact ⟨hv, by simp [pendingWithTag, hvtag, hvst]⟩
    exact selectMinId_le _ _ hu v hvf

/-- Witness for C10: the single-pending-task store. -/
theorem claim_fifo_witness :
    (∃ t ∈ exStore1.tasks, t.tag = "t1" ∧ t.status = Status.pending) ∧
      (∃ u, (postTasksStart exStore1 "t1").2 = StartResponse.ok (some u) ∧
        u ∈ exStore1.tasks ∧ u.tag = "t1" ∧ u.status = Status.pending ∧
        ∀ v ∈ exStore1.tasks, v.tag = "t1" → v.status = Status.pending → u.id ≤ v.id) :=
  ⟨⟨exRow1, by decide, by decide, by decide⟩,
    claim_fifo exStore1 "t1" ⟨exRow1, by decide, by decide, by decide⟩⟩

/-- Inversion of a successful sequential claim: the SELECT returned the row
the handler echoes back, and the stored table is the CAS result. -/
theorem postTasksStart_ok_some (store : Store) (tag : String) (store2 : Store) (t : TaskRow)
    (h : postTasksStart store tag = (store2, StartResponse.ok (some t))) :
    findPendingTask store.tasks tag = some t ∧
      store2.tasks = (casToRunning store.tasks t.id).1 := by
  cases hf : findPendingTask store.tasks tag with
  | none => simp [postTasksStart, postTasksStartRacy, hf] at h
  | some u =>
    simp only [postTasksStart, postTasksStartRacy, hf] at h
    split at h
    · injection h with h1 h2
      injection h2 with h3
      injection h3 with h4
      subst h4
      exact ⟨rfl, by rw [← h1]⟩
    · injection h with h1 h2
      exact StartResponse.noConfusion h2

/-- C2: the task record a successful claim returns is the row as read BEFORE
the conditional update: its `status` field is still `pending` although the
stored row is now `running`; and a heartbeat tick, which sends that record
via `PUT /tasks/:id` with only the payload changed, writes status `pending`
back to the store (together with the fresh `lastHeartbeat`). -/
theorem claim_returns_stale_pending (store store2 : Store) (tag : String) (t : TaskRow)
    (now : Nat) (hn : (store.tasks.map TaskRow.id).Nodup)
    (h : postTasksStart store tag = (store2, StartResponse.ok (some t))) :
    t.status = Status.pending ∧
      (∀ r ∈ store2.tasks, r.id = t.id → r.status = Status.running) ∧
      (∀ r ∈ (heartbeatStep (mkRunnerState t) now store2).2.tasks, r.id = t.id →
        r.status = Status.pending ∧ r.task.lastHeartbeat = some now) := by
  obtain ⟨hfind, htasks⟩ := postTasksStart_ok_some _ _ _ _ h
  obtain ⟨hmem, htag, hst⟩ := findPendingTask_spec _ _ _ hfind
  refine ⟨hst, ?_, ?_⟩
  · intro r hr hrid
    rw [htasks] at hr
    simp only [casToRunning, List.mem_map] at hr
    obtain ⟨r0, hr0, hrr⟩ := hr
    by_cases hc : r0.id = t.id ∧ r0.status = Status.pending
    · rw [if_pos hc] at hrr
      rw [← hrr]
    · rw [if_neg hc] at hrr
      subst hrr
      have hrt : r0 = t := List.inj_on_of_nodup_map hn hr0 hmem hrid
      subst hrt
      exact absurd ⟨hrid, hst⟩ hc
  · intro r hr hrid
    simp only [heartbeatStep, mkRunnerState, putTask, List.mem_map] at hr
    obtain ⟨r0, hr0, hrr⟩ := hr
    by_cases hc : r0.id = t.id
    · rw [if_pos hc] at hrr
      rw [← hrr]
      exact ⟨hst, rfl⟩
    · rw [if_neg hc] at hrr
      subst hrr
      exact absurd hrid hc

/-- Witness for C2: claim the single pending task of `exStore1` and heartbeat
at time 7. -/
theorem claim_returns_stale_pending_witness :
    ((exStore1.tasks.map TaskRow.id).Nodup ∧
        postTasksStart exStore1 "t1" =
          ({ tasks := exTasksRun, logs := [] }, StartResponse.ok (some exRow1))) ∧
      (exRow1.status = Status.pending ∧
        (∀ r ∈ ({ tasks := exTasksRun, logs := [] } : Store).tasks, r.id = exRow1.id →
          r.status = Status.running) ∧
        (∀ r ∈ (heartbeatStep (mkRunnerState exRow1) 7
            { tasks := exTasksRun, logs := [] }).2.tasks, r.id = exRow1.id →
          r.status = Status.pending ∧ r.task.lastHeartbeat = some 7)) :=
  ⟨⟨by decide, by decide⟩,
    claim_returns_stale_pending exStore1 _ "t1" exRow1 7 (by decide) (by decide)⟩

/-- C5 counterexample: two callers race on the single pending task of
`exStore1`.  The winner gets the task; the loser's conditional UPDATE matches
no row, the worker answers 409 `'Task status was already changed'`, and the
client surfaces it as a thrown `ResponseError` — a result distinct from the
null `"no task available"` answer an empty queue produces. -/
theorem lost_race_result_cex :
    twoCallerRace exStore1.tasks "t1" =
        (ClientResult.task exRow1, ClientResult.error 409) ∧
      startNextTaskClient (postTasksStart { tasks := [], logs := [] } "t1").2 =
        ClientResult.noTask ∧
      ClientResult.error 409 ≠ ClientResult.noTask :=
  ⟨by decide, by decide, by decide⟩

/-- C5 amended: a caller that loses the race (its SELECT returned a task that
is no longer pending at write time) receives the 409 conflict response, which
the client turns into a thrown error with status 409 — never the null
`"no task available"` result. -/
theorem lost_race_conflict (readTasks writeTasks : List TaskRow) (tag : String)
    (t : TaskRow) (hr : findPendingTask readTasks tag = some t)
    (hw : taskPendingB writeTasks t.id = false) :
    (postTasksStartRacy readTasks writeTasks tag).2 = StartResponse.conflict ∧
      startNextTaskClient (postTasksStartRacy readTasks writeTasks tag).2 =
        ClientResult.error 409 := by
  have hc : (postTasksStartRacy readTasks writeTasks tag).2 = StartResponse.conflict := by
    simp [postTasksStartRacy, hr, casToRunning_snd, hw]
  exact ⟨hc, by rw [hc]; rfl⟩

/-- Witness for C5: the read saw the pending task but it is `running` by
write time. -/
theorem lost_race_conflict_witness :
    (findPendingTask exStore1.tasks "t1" = some exRow1 ∧
        taskPendingB exTasksRun exRow1.id = false) ∧
      ((postTasksStartRacy exStore1.tasks exTasksRun "t1").2 = StartResponse.conflict ∧
        startNextTaskClient (postTasksStartRacy exStore1.tasks exTasksRun "t1").2 =
          ClientResult.error 409) :=
  ⟨⟨by decide, by decide⟩,
    lost_race_conflict exStore1.tasks exTasksRun "t1" exRow1 (by decide) (by decide)⟩

/-- Flush fixture: one buffered stdout entry (`hi` in base64). -/
def exFlush : FlushState :=
  { buffer := [{ type := "stdout", data := "aGk=" }], stored := [] }

/-- C3 counterexample: with a non-empty buffer and a failing append,
`sendLogs` has already truncated the buffer (`logs.length = 0` runs before
the `await client.appendLog`), so the drained entries sit in neither the
buffer nor the store — they are not "intact for the next flush attempt". -/
theorem log_flush_cex :
    exFlush.buffer ≠ [] ∧
      (sendLogs exFlush 5 false).buffer = [] ∧
      (sendLogs exFlush 5 false).stored = [] :=
  ⟨by decide, by decide, by decide⟩

/-- C3 amended: once a flush of a non-empty buffer begins, the buffer is
cleared unconditionally; a successful append persists exactly the drained
entries as one chunk, while a failed append persists nothing — the drained
entries are lost rather than redelivered. -/
theorem log_flush_amended (st : FlushState) (now : Nat) (hne : st.buffer ≠ []) :
    ((sendLogs st now true).buffer = [] ∧ (sendLogs st now false).buffer = []) ∧
      (sendLogs st now true).stored =
        st.stored ++ [{ timestamp := now, entries := st.buffer }] ∧
      (sendLogs st now false).stored = st.stored := by
  have hb : st.buffer.isEmpty = false := List.isEmpty_eq_false.mpr hne
  refine ⟨⟨?_, ?_⟩, ?_, ?_⟩ <;> simp [sendLogs, hb]

/-- Witness for C3 amended: the one-entry buffer. -/
theorem log_flush_amended_witness :
    exFlush.buffer ≠ [] ∧
      (((sendLogs exFlush 5 true).buffer = [] ∧ (sendLogs exFlush 5 false).buffer = []) ∧
        (sendLogs exFlush 5 true).stored =
          exFlush.stored ++ [{ timestamp := 5, entries := exFlush.buffer }] ∧
        (sendLogs exFlush 5 false).stored = exFlush.stored) :=
  ⟨by decide, log_flush_amended exFlush 5 (by decide)⟩

/-- C4 counterexample: one pending task and one preparation command exiting 1.
The cycle's trace shows the claim request issued BEFORE the preparation
command runs, and after the aborted cycle task 1 is `running`, not `pending`:
a task did leave `pending` because of the aborted cycle. -/
theorem prep_order_cex :
    runCycleTrace exStore1 "t1" [1] = [CycleEvent.claimCalled, CycleEvent.prepCalled 1] ∧
      (runCycle exStore1 "t1" [1]).2 = CycleResult.prepFailed ∧
      taskPendingB (runCycle exStore1 "t1" [1]).1.tasks 1 = false ∧
      getTask (runCycle exStore1 "t1" [1]).1 1 = some exRow1Run :=
  ⟨by decide, by decide, by decide, by decide⟩

/-- C4 amended: `runNextTask` calls `claimNext` FIRST; the preparation
commands run only after a task was claimed, and when one exits non-zero the
cycle aborts with the already-claimed task no longer `pending` (it stays
`running`). -/
theorem prep_after_claim (store : Store) (tag : String) (prepExits : List Nat)
    (t : TaskRow) (hfind : findPendingTask store.tasks tag = some t)
    (hfail : prepExits.all (· = 0) = false) :
    (runCycle store tag prepExits).2 = CycleResult.prepFailed ∧
      taskPendingB (runCycle store tag prepExits).1.tasks t.id = false ∧
      runCycleTrace store tag prepExits =
        CycleEvent.claimCalled :: prepTrace prepExits := by
  obtain ⟨hmem, htag, hst⟩ := findPendingTask_spec _ _ _ hfind
  have hpend : taskPendingB store.tasks t.id = true :=
    (taskPendingB_iff _ _).mpr ⟨t, hmem, rfl, hst⟩
  have hpost : postTasksStart store tag =
      ({ store with tasks := applyCas store.tasks t.id }, StartResponse.ok (some t)) := by
    simp only [postTasksStart, postTasksStartRacy, hfind, casToRunning_snd, hpend, if_true]
    rfl
  refine ⟨?_, ?_, ?_⟩
  · simp [runCycle, hpost, hfail]
  · simp only [runCycle, hpost, hfail]
    simp only [Bool.false_eq_true, if_false]
    exact taskPendingB_applyCas_self store.tasks t.id
  · simp [runCycleTrace, hpost, hfail]

/-- Witness for C4 amended: the single-pending-task store with a failing
preparation command. -/
theorem prep_after_claim_witness :
    (findPendingTask exStore1.tasks "t1" = some exRow1 ∧
        ([1] : List Nat).all (· = 0) = false) ∧
      ((runCycle exStore1 "t1" [1]).2 = CycleResult.prepFailed ∧
        taskPendingB (runCycle exStore1 "t1" [1]).1.tasks exRow1.id = false ∧
        runCycleTrace exStore1 "t1" [1] = CycleEvent.claimCalled :: prepTrace [1]) :=
  ⟨⟨by decide, by decide⟩,
    prep_after_claim exStore1 "t1" [1] exRow1 (by decide) (by decide)⟩

/-- The store right after task 1 was claimed. -/
def exStoreRun : Store := { tasks := exTasksRun, logs := [] }

/-- Runner state and store after one heartbeat at time 100. -/
def exAfterHB : RunnerTaskState × Store :=
  heartbeatStep (mkRunnerState exRow1) 100 exStoreRun

/-- Runner state and store after the child then exits with code 0. -/
def exAfterFinal : RunnerTaskState × Store := finalizeStep exAfterHB.1 0 exAfterHB.2

/-- The finalized row: `done` with an exit code — and with the last
heartbeat timestamp still present. -/
def exDoneRow : TaskRow :=
  { id := 1, tag := "t1",
    task := { command := ["echo", "hi"], exitCode := some 0, lastHeartbeat := some 100 },
    status := Status.done }

/-- C6 counterexample: run the lifecycle add → claim → heartbeat(100) →
finalize(0).  The resulting record is `done` and still carries
`lastHeartbeat = 100`: finalization does not clear it, contradicting
"lastHeartbeat present only while status == running" and "finalizing a run
to done leaves the record with no lastHeartbeat". -/
theorem record_invariant_cex :
    getTask exAfterFinal.2 1 = some exDoneRow ∧
      exDoneRow.status = Status.done ∧ exDoneRow.task.lastHeartbeat ≠ none :=
  ⟨by decide, by decide, by decide⟩

/-- C6 amended: submission creates records with no `exitCode` and no
`lastHeartbeat`; finalization writes `done` together with the exit code but
does NOT clear `lastHeartbeat` (the done record keeps the last heartbeat
timestamp); and each heartbeat writes `lastHeartbeat` together with the
claimed record's stale status field — so `lastHeartbeat` is not confined to
records whose stored status is `running`. -/
theorem record_fields_amended (store : Store) (rs : RunnerTaskState) (code : Int)
    (now : Nat) (tag : String) (cmd : List String) :
    ((addTask store tag cmd).2.status = Status.pending ∧
        (addTask store tag cmd).2.task.exitCode = none ∧
        (addTask store tag cmd).2.task.lastHeartbeat = none) ∧
      (∀ r ∈ (finalizeStep rs code store).2.tasks, r.id = rs.task.id →
        r.status = Status.done ∧ r.task.exitCode = some code ∧
          r.task.lastHeartbeat = rs.taskData.lastHeartbeat) ∧
      (∀ r ∈ (heartbeatStep rs now store).2.tasks, r.id = rs.task.id →
        r.status = rs.task.status ∧ r.task.lastHeartbeat = some now) := by
  refine ⟨⟨rfl, rfl, rfl⟩, ?_, ?_⟩
  · intro r hr hrid
    simp only [finalizeStep, putTask, List.mem_map] at hr
    obtain ⟨r0, hr0, hrr⟩ := hr
    by_cases hc : r0.id = rs.task.id
    · rw [if_pos hc] at hrr
      rw [← hrr]
      exact ⟨rfl, rfl, rfl⟩
    · rw [if_neg hc] at hrr
      subst hrr
      exact absurd hrid hc
  · intro r hr hrid
    simp only [heartbeatStep, putTask, List.mem_map] at hr
    obtain ⟨r0, hr0, hrr⟩ := hr
    by_cases hc : r0.id = rs.task.id
    · rw [if_pos hc] at hrr
      rw [← hrr]
      exact ⟨rfl, rfl⟩
    · rw [if_neg hc] at hrr
      subst hrr
      exact absurd hrid hc

/-- Witness for C6 amended: instantiated at the claimed task of `exStoreRun`. -/
theorem record_fields_amended_witness :
    ((addTask exStoreRun "t2" ["ls"]).2.status = Status.pending ∧
        (addTask exStoreRun "t2" ["ls"]).2.task.exitCode = none ∧
        (addTask exStoreRun "t2" ["ls"]).2.task.lastHeartbeat = none) ∧
      (∀ r ∈ (finalizeStep (mkRunnerState exRow1) 0 exStoreRun).2.tasks,
          r.id = (mkRunnerState exRow1).task.id →
        r.status = Status.done ∧ r.task.exitCode = some 0 ∧
          r.task.lastHeartbeat = (mkRunnerState exRow1).taskData.lastHeartbeat) ∧
      (∀ r ∈ (heartbeatStep (mkRunnerState exRow1) 100 exStoreRun).2.tasks,
          r.id = (mkRunnerState exRow1).task.id →
        r.status = (mkRunnerState exRow1).task.status ∧
          r.task.lastHeartbeat = some 100) :=
  record_fields_amended exStoreRun (mkRunnerState exRow1) 0 100 "t2" ["ls"]

/-- C7: the `requeue` command can never reach its write: the worker's
`GET /tasks/:id` serializes `result.results`, a JSON array, while the
client's `getTaskById` parses the body with the single-object `taskSchema`,
so `request` always throws `ResponseError('Response parsing failed', 500)`
before anything is updated.  On every store and id the command yields the
500 error and no store change — the claimed postconditions (status
`pending`, cleared `exitCode`/`lastHeartbeat`) are never established. -/
theorem requeue_always_fails (store : Store) (id : Nat) :
    requeueCommand store id = Except.error 500 := rfl

/-- Lemma: `chunksBytes` distributes over append. -/
theorem chunksBytes_append (l1 l2 : List LogChunk) :
    chunksBytes (l1 ++ l2) = chunksBytes l1 ++ chunksBytes l2 := by
  induction l1 with
  | nil => rfl
  | cons c rest ih => simp [chunksBytes, ih]

/-- C8: replay determinism and the position law: the byte stream of
`replayLogs` at position `k` is an initial segment of the stream at `k + 1`
(written `<+:`), and replay is a pure function of the stored chunks and the
position, so equal inputs give byte-identical output. -/
theorem replay_position_law (chunks : List LogChunk) (p : Nat) (_hp : p < chunks.length) :
    replayBytes chunks p <+: replayBytes chunks (p + 1) ∧
      ∀ chunks2 p2, chunks2 = chunks → p2 = p →
        replayBytes chunks2 p2 = replayBytes chunks p := by
  constructor
  · unfold replayBytes
    rw [List.take_succ, chunksBytes_append]
    exact ⟨chunksBytes chunks[p]?.toList, rfl⟩
  · intro c2 p2 h1 h2
    rw [h1, h2]

/-- A chunk with one stdout entry (`hi`). -/
def exChunk1 : LogChunk :=
  { timestamp := 1, entries := [{ type := "stdout", data := "aGk=" }] }

/-- A chunk with one stderr entry (`yo`). -/
def exChunk2 : LogChunk :=
  { timestamp := 2, entries := [{ type := "stderr", data := "eW8=" }] }

/-- Witness for C8: two stored chunks, position 0. -/
theorem replay_position_law_witness :
    0 < ([exChunk1, exChunk2] : List LogChunk).length ∧
      (replayBytes [exChunk1, exChunk2] 0 <+: replayBytes [exChunk1, exChunk2] 1 ∧
        ∀ chunks2 p2, chunks2 = [exChunk1, exChunk2] → p2 = 0 →
          replayBytes chunks2 p2 = replayBytes [exChunk1, exChunk2] 0) :=
  ⟨by decide, replay_position_law [exChunk1, exChunk2] 0 (by decide)⟩

/-- Lemma: every stored rowid is bounded by `maxLogId`. -/
theorem maxLogId_ge (rows : List LogRow) : ∀ r ∈ rows, r.id ≤ maxLogId rows := by
  induction rows with
  | nil => intro r hr; cases hr
  | cons x rest ih =>
    intro r hr
    rcases List.mem_cons.mp hr with rfl | hr2
    · exact Nat.le_max_left _ _
    · exact Nat.le_trans (ih r hr2) (Nat.le_max_right _ _)

/-- C9: the `logs` table keeps strictly ascending rowids — an insert assigns
`max + 1`, preserving the invariant — and `GET /logs/:task_id` (a filter of
the table in scan order) therefore returns any task's chunk rows in ascending
id order, i.e. chronological insertion order. -/
theorem log_fetch_ordered (rows : List LogRow) (tid : Nat) (chunk : LogChunk) :
    (logsSorted rows → List.Pairwise (fun a b => a.id < b.id) (fetchLogRows rows tid)) ∧
      (logsSorted rows → logsSorted (appendLogRow rows tid chunk)) := by
  constructor
  · intro h
    exact List.Pairwise.sublist (List.filter_sublist rows) h
  · intro h
    unfold logsSorted appendLogRow
    rw [List.pairwise_append]
    refine ⟨h, List.pairwise_singleton _ _, ?_⟩
    intro a ha b hb
    rw [List.mem_singleton] at hb
    subst hb
    exact Nat.lt_succ_of_le (maxLogId_ge rows a ha)

/-- Log-table fixture: two tasks' chunks interleaved, ids ascending. -/
def exLogRows : List LogRow :=
  [{ id := 1, task_id := 1, log := exChunk1 },
    { id := 2, task_id := 2, log := exChunk1 },
    { id := 3, task_id := 1, log := exChunk2 }]

/-- Witness for C9: the interleaved table. -/
theorem log_fetch_ordered_witness :
    logsSorted exLogRows ∧
      ((logsSorted exLogRows →
          List.Pairwise (fun a b => a.id < b.id) (fetchLogRows exLogRows 1)) ∧
        (logsSorted exLogRows → logsSorted (appendLogRow exLogRows 1 exChunk2))) :=
  ⟨by unfold logsSorted; decide, log_fetch_ordered exLogRows 1 exChunk2⟩

end RemoteTasks
